import Mathlib

/-!
Verification development for `asmdiff`, a comparer for `objdump -d` output.

The definitions below are a shallow embedding of `src/asmdiff/asmdiff.py`:
  * `Instruction`, `Section`, `Function`, `AsmFile` mirror the data model;
  * `Function.finish` mirrors `Function.finish` (including the unconditional
    `break` in its trailing-padding scan);
  * `fixupDisasm` mirrors `ObjDump.fixup_disasm`, with the two Python regexes
    (`.*\s([0-9a-f]+ \<.+\+0x[0-9a-f]+\>)` and `.*\s([0-9a-f]+) (\<.+\>)`)
    embedded as recursive matchers with Python's leftmost/greedy backtracking
    semantics (later group starts are preferred, sub-patterns are greedy);
  * parsing (`ObjDump.__init__`) becomes `parseLines`/`parseObjDump` over the
    list of input lines (line contents without the trailing newline, so the
    Python blank-line test `line == '\n'` becomes `l = ""`);
  * the scope tree of `_on_function` becomes `ScopeEntry`/`insertWalk`, where
    the tree stores the raw name of a function (Python stores a reference to
    the Function object; its identity is its raw name, per `Function.__eq__`);
  * `fn_equal`, `fn_diff`, `FunctionMatchupSet` and the counter loop of
    `asm_diff` are embedded directly; the lines printed by `fn_diff` are
    modelled by the inductive `OutLine`, one constructor per `writeln` call
    site, carrying the interpolated values.

The external demangler (`c++filt`) is a parameter `d : String → String`
throughout, as the code treats it as an opaque service.
-/

namespace AsmDiff

/-- Lowercase hexadecimal digit, the Python character class `[0-9a-f]`. -/
def isHexDigit (c : Char) : Bool :=
  ('0' ≤ c && c ≤ '9') || ('a' ≤ c && c ≤ 'f')

/-- Python `\s` on ASCII text: space, tab, newline, vertical tab, form feed,
carriage return. -/
def isPySpace (c : Char) : Bool :=
  c = ' ' || c = '\t' || c = '\n' || c = '\x0b' || c = '\x0c' || c = '\r'

/-- Value of one lowercase hex digit. -/
def hexVal (c : Char) : Nat :=
  if c ≤ '9' then c.toNat - '0'.toNat else c.toNat - 'a'.toNat + 10

/-- Python `int(s, 16)` on a lowercase hex string (the `from_hex` helper). -/
def hexToNat (l : List Char) : Nat :=
  l.foldl (fun a c => a * 16 + hexVal c) 0

/-- Python `str.replace`: replace non-overlapping occurrences left to right.
Fueled by the length of the string; each step consumes at least one
character when the pattern is nonempty. -/
def replaceAux (pat rep : List Char) : Nat → List Char → List Char
  | _, [] => []
  | 0, l => l
  | fuel + 1, c :: cs =>
    if pat ≠ [] && pat.isPrefixOf (c :: cs) then
      rep ++ replaceAux pat rep fuel ((c :: cs).drop pat.length)
    else
      c :: replaceAux pat rep fuel cs

/-- Python `s.replace(pat, rep)` (for nonempty `pat`). -/
def pyReplace (s pat rep : String) : String :=
  String.mk (replaceAux pat.data rep.data s.data.length s.data)

/-- Python `s.split('::')` : split on `::` left to right, keeping empties. -/
def splitCC (fuel : Nat) (acc : List Char) : List Char → List String
  | [] => [String.mk acc.reverse]
  | c :: cs =>
    match fuel with
    | 0 => [String.mk (acc.reverse ++ c :: cs)]
    | fuel + 1 =>
      if c = ':' ∧ cs.head? = some ':' then
        String.mk acc.reverse :: splitCC fuel [] (cs.drop 1)
      else
        splitCC fuel (c :: acc) cs

/-- Python `demangled.split('::')`. -/
def splitScopes (s : String) : List String :=
  splitCC s.data.length [] s.data

/-- Python `s.split()` on the hex-bytes field: whitespace-separated tokens,
empties dropped. -/
def wsTokensAux (acc : List Char) : List Char → List (List Char)
  | [] => if acc = [] then [] else [acc.reverse]
  | c :: cs =>
    if isPySpace c then
      if acc = [] then wsTokensAux [] cs else acc.reverse :: wsTokensAux [] cs
    else
      wsTokensAux (c :: acc) cs

def wsTokens (l : List Char) : List (List Char) := wsTokensAux [] l

/-- Section of the binary (`class Section`); equality is by name. -/
structure Section where
  name : String
deriving DecidableEq, Repr

/-- One machine instruction (`class Instruction`): offset, raw byte values,
normalized disassembly text. -/
structure Instruction where
  offset : Nat
  bytes_ : List Nat
  disasm : String
deriving DecidableEq, Repr

/-- One disassembled routine (`class Function`).  `sect` is the owning
section (`self.section`; `section` is a Lean keyword). -/
structure Function where
  sect : Option Section
  offset : Nat
  rawname : String
  demangled : String
  leafname : String
  instrs : List Instruction
  padding : List Instruction
  size : Nat
deriving DecidableEq, Repr

/-- `Function.finish`: locate trailing padding and move it to `padding`,
then compute `size` from the remaining instructions.  The Python loop

    for instr in self.instrs[::-1]:
        if instr.disasm == 'nop':
            start_of_padding -= 1
        break

has an unconditional `break`, so at most the single last instruction is ever
examined; the embedding reproduces that. -/
def Function.finish (f : Function) : Function :=
  let start_of_padding :=
    match f.instrs.reverse with
    | [] => f.instrs.length
    | i :: _ => if i.disasm = "nop" then f.instrs.length - 1 else f.instrs.length
  { f with
    instrs := f.instrs.take start_of_padding
    padding := f.instrs.drop start_of_padding
    size := ((f.instrs.take start_of_padding).map (fun i => i.bytes_.length)).sum }

/-!
Embedding of the two regex rewrites in `ObjDump.fixup_disasm`.

Pattern A: `.*\s([0-9a-f]+ \<.+\+0x[0-9a-f]+\>)` followed by re-matching
`[0-9a-f]+ \<(.+)\+(0x[0-9a-f]+)\>` on the captured group.  The leading
greedy `.*` means the *latest* feasible group start (preceded by a `\s`
character, with only non-newline characters before it) wins; inside the
group, `.+` is greedy, so the *latest* `+` such that `0x`, a maximal hex
run and `>` follow is taken.  `innerA l` returns, for the text after `<`,
the characters consumed by `.+`, the hex digits of the `0x` delta, and the
text after `>`.
-/

/-- Tail of pattern A after the `+`: literal `0x`, a maximal nonempty hex
run, then `>`; returns the hex digits and the rest after `>`. -/
def plusTailA : List Char → Option (List Char × List Char)
  | '0' :: 'x' :: rest =>
    let ds := rest.takeWhile isHexDigit
    match rest.drop ds.length with
    | '>' :: suf => if ds = [] then none else some (ds, suf)
    | _ => none
  | _ => none

/-- Greedy `(.+)\+0x[0-9a-f]+\>` search: prefer the latest `+`.  Returns
(characters consumed by `.+`, delta digits, text after `>`). -/
def innerA : List Char → Option (List Char × List Char × List Char)
  | [] => none
  | c :: cs =>
    ((if c ≠ '\n' then innerA cs else none).map
      (fun p => (c :: p.1, p.2.1, p.2.2))).orElse
    (fun _ =>
      if c = '+' then (plusTailA cs).map (fun p => (([] : List Char), p.1, p.2))
      else none)

/-- The tail of the pattern-A group after `<`: a greedy nonempty `.+`, then
`+0x`, hex digits, `>`. -/
def groupATail (t : List Char) : Option (List Char × List Char × List Char) :=
  (innerA t).bind (fun p => if p.1 = [] then none else some p)

/-- The captured group of pattern A at a fixed start position: a maximal
nonempty hex run, a space, `<`, then `groupATail`.  Returns (name, delta
digits, text after the group). -/
def groupA (l : List Char) : Option (List Char × List Char × List Char) :=
  let h := l.takeWhile isHexDigit
  if h = [] then none
  else
    match l.drop h.length with
    | ' ' :: '<' :: t => groupATail t
    | _ => none

/-- Full pattern A search: latest group start wins; the group start must be
preceded by a `\s` character and the characters before that consumed by `.*`
must not be newlines.  Returns (text before the group, name, delta digits,
text after the group). -/
def findA : List Char → Option (List Char × List Char × List Char × List Char)
  | [] => none
  | c :: cs =>
    ((if c ≠ '\n' then findA cs else none).map
      (fun p => (c :: p.1, p.2.1, p.2.2.1, p.2.2.2))).orElse
    (fun _ =>
      if isPySpace c then (groupA cs).map (fun p => ([c], p.1, p.2.1, p.2.2))
      else none)

/-- First rewrite of `fixup_disasm`: if pattern A matches and the captured
name equals the enclosing function's raw name, splice in `FN+0x<delta>`. -/
def fixupA (l : List Char) (raw : List Char) : List Char :=
  ((findA l).map (fun q =>
    if q.2.1 = raw then
      q.1 ++ ('F' :: 'N' :: '+' :: '0' :: 'x' :: q.2.2.1) ++ q.2.2.2
    else l)).getD l

/-- Greedy `.+\>` search of pattern B: prefer the latest `>`.  Returns
(characters consumed by `.+`, text after `>`). -/
def innerB : List Char → Option (List Char × List Char)
  | [] => none
  | c :: cs =>
    ((if c ≠ '\n' then innerB cs else none).map
      (fun p => (c :: p.1, p.2))).orElse
    (fun _ => if c = '>' then some (([] : List Char), cs) else none)

/-- The tail of the pattern-B group 2 after `<`: greedy nonempty `.+`, then
`>`; returns the bracketed group 2. -/
def groupBTail (t : List Char) : Option (List Char) :=
  (innerB t).bind (fun p => if p.1 = [] then none else some ('<' :: p.1 ++ ['>']))

/-- The two captured groups of pattern B at a fixed start: a maximal
nonempty hex run (group 1), a space, then `\<.+\>` (group 2, brackets
included).  Returns group 2. -/
def groupB (l : List Char) : Option (List Char) :=
  let h := l.takeWhile isHexDigit
  if h = [] then none
  else
    match l.drop h.length with
    | ' ' :: '<' :: t => groupBTail t
    | _ => none

/-- Full pattern B search `.*\s([0-9a-f]+) (\<.+\>)`: latest group-1 start
wins.  Returns (text before group 1, group 2 with brackets). -/
def findB : List Char → Option (List Char × List Char)
  | [] => none
  | c :: cs =>
    ((if c ≠ '\n' then findB cs else none).map
      (fun p => (c :: p.1, p.2))).orElse
    (fun _ => if isPySpace c then (groupB cs).map (fun g => ([c], g)) else none)

/-- Second rewrite of `fixup_disasm`: if pattern B matches and group 2 (the
bracketed `<name>`) differs from the raw function name, drop everything from
the hex offset on and append the demangler's output on the bracketed text. -/
def fixupB (l : List Char) (raw : List Char) (d : String → String) : List Char :=
  ((findB l).map (fun q =>
    if q.2 ≠ raw then q.1 ++ (d (String.mk q.2)).data else l)).getD l

/-- `ObjDump.fixup_disasm(disasm, rawfuncname, demangler)`. -/
def fixupDisasm (disasm raw : String) (d : String → String) : String :=
  String.mk (fixupB (fixupA disasm.data raw.data) raw.data d)

/-!
Line recognizers of `ObjDump.__init__`.  Input lines are modelled as their
content without the trailing newline, so Python's blank test `line == '\n'`
becomes `l = ""` and the anchors `^...$` delimit the whole content.
-/

/-- Latest-`:` search for `^(.+):\s+file format (.+)$`: the greedy `(.+)`
prefers the last `:` whose tail matches; returns (group 1, group 2). -/
def ffAux : List Char → Option (List Char × List Char)
  | [] => none
  | c :: cs =>
    match (if c ≠ '\n' then ffAux cs else none) with
    | some (g1, g2) => some (c :: g1, g2)
    | none =>
      if c = ':' then
        let w := cs.takeWhile isPySpace
        if w = [] then none
        else
          let r := cs.drop w.length
          if ("file format ".data).isPrefixOf r then
            let g2 := r.drop 12
            if g2 ≠ [] ∧ g2.all (fun x => x ≠ '\n') then some ([], g2) else none
          else none
      else none

/-- Recognizer for `^(.+):\s+file format (.+)$` (objpath, fileformat). -/
def matchFileFormat : List Char → Option (List Char × List Char)
  | [] => none
  | c :: cs =>
    if c ≠ '\n' then (ffAux cs).map (fun p => (c :: p.1, p.2)) else none

/-- Recognizer for `^Disassembly of section (.+):$`. -/
def matchSection (l : List Char) : Option (List Char) :=
  if ("Disassembly of section ".data).isPrefixOf l then
    let r := l.drop 23
    match r.reverse with
    | ':' :: gRev =>
      let g := gRev.reverse
      if g ≠ [] ∧ g.all (fun x => x ≠ '\n') then some g else none
    | _ => none
  else none

/-- Recognizer for the function header `^([0-9a-f]+) <(.+)>:$`; returns
(offset, raw name). -/
def matchFnHeader (l : List Char) : Option (Nat × List Char) :=
  let h := l.takeWhile isHexDigit
  if h = [] then none
  else
    match l.drop h.length with
    | ' ' :: '<' :: r =>
      match r.reverse with
      | ':' :: '>' :: nmRev =>
        let nm := nmRev.reverse
        if nm ≠ [] ∧ nm.all (fun x => x ≠ '\n') then some (hexToNat h, nm) else none
      | _ => none
    | _ => none

/-- Recognizer for `^\s*([0-9a-f]+):\t([0-9a-f ]+)\t(.+)$`; returns
(offset, byte values, disassembly text). -/
def matchInstr3 (l : List Char) : Option (Nat × List Nat × List Char) :=
  let r := l.drop (l.takeWhile isPySpace).length
  let h := r.takeWhile isHexDigit
  if h = [] then none
  else
    match r.drop h.length with
    | ':' :: '\t' :: r2 =>
      let run := r2.takeWhile (fun c => isHexDigit c || c = ' ')
      if run = [] then none
      else
        match r2.drop run.length with
        | '\t' :: g3 =>
          if g3 ≠ [] ∧ g3.all (fun x => x ≠ '\n') then
            some (hexToNat h, (wsTokens run).map hexToNat, g3)
          else none
        | _ => none
    | _ => none

/-- Recognizer for `^\s*([0-9a-f]+):\t([0-9a-f ]+)$` (data line without
disassembly text); returns (offset, byte values). -/
def matchInstr2 (l : List Char) : Option (Nat × List Nat) :=
  let r := l.drop (l.takeWhile isPySpace).length
  let h := r.takeWhile isHexDigit
  if h = [] then none
  else
    match r.drop h.length with
    | ':' :: '\t' :: r2 =>
      if r2 ≠ [] ∧ r2.all (fun c => isHexDigit c || c = ' ') then
        some (hexToNat h, (wsTokens r2).map hexToNat)
      else none
    | _ => none

/-!
The scope tree of `_on_function`.  A `Scope` is a dict from name component
to child Scope-or-Function; we store a function by its raw name (Python
stores the object reference; `Function.__eq__` makes the raw name its
identity).  Dict assignment keeps the position of an existing key.
-/

inductive ScopeEntry where
  | node (name : String) (children : List (String × ScopeEntry))
  | fnLeaf (rawname : String)
deriving Repr

/-- Dict read `d[k]` / membership. -/
def assocGet (l : List (String × ScopeEntry)) (k : String) : Option ScopeEntry :=
  (l.find? (fun p => p.1 = k)).map (fun p => p.2)

/-- Dict write `d[k] = v`: overwrites in place, appends if the key is new. -/
def assocSet (l : List (String × ScopeEntry)) (k : String) (v : ScopeEntry) :
    List (String × ScopeEntry) :=
  match l with
  | [] => [(k, v)]
  | p :: ps => if p.1 = k then (p.1, v) :: ps else p :: assocSet ps k v

/-- A scope-walk failure: Python raises `TypeError` when `in` or item
assignment is applied to a `Function` reached as an intermediate entry. -/
inductive ScopeErr where
  | typeError
deriving DecidableEq, Repr

/-- The `if scope not in curscope: curscope[scope] = Scope(scope)` step. -/
def ensureChild (children : List (String × ScopeEntry)) (dir : String) :
    List (String × ScopeEntry) :=
  if (assocGet children dir).isSome then children
  else children ++ [(dir, .node dir [])]

/-- The scope walk of `_on_function`: descend along `dirs` creating missing
intermediate Scopes, then assign the function (by raw name) at `leaf`.
Descending into a Function entry is Python's `TypeError`. -/
def insertWalk (children : List (String × ScopeEntry)) :
    List String → String → String → Except ScopeErr (List (String × ScopeEntry))
  | [], leaf, raw => .ok (assocSet children leaf (.fnLeaf raw))
  | dir :: rest, leaf, raw =>
    match assocGet (ensureChild children dir) dir with
    | some (.node nm cs) =>
      match insertWalk cs rest leaf raw with
      | .ok cs' => .ok (assocSet (ensureChild children dir) dir (.node nm cs'))
      | .error e => .error e
    | _ => .error .typeError

/-- Follow a `::`-path from a scope's children down to an entry. -/
def lookupPath (children : List (String × ScopeEntry)) :
    List String → Option ScopeEntry
  | [] => none
  | [k] => assocGet children k
  | k :: rest =>
    match assocGet children k with
    | some (.node _ cs) => lookupPath cs rest
    | _ => none

/-- Run a sequence of scope insertions `(dirs, leaf, rawname)` in order. -/
def insertAll (children : List (String × ScopeEntry)) :
    List (List String × String × String) →
    Except ScopeErr (List (String × ScopeEntry))
  | [] => .ok children
  | (dirs, leaf, raw) :: rest =>
    match insertWalk children dirs leaf raw with
    | .ok c' => insertAll c' rest
    | .error e => .error e

/-- The parse result (`class AsmFile` populated by `ObjDump`): sections and
functions are insertion-ordered dicts keyed by name / raw name. -/
structure AsmFile where
  objpath : Option String := none
  fileformat : Option String := none
  sections : List Section := []
  functions : List Function := []
  rootns : List (String × ScopeEntry) := []
deriving Repr

/-- Dict write into the function map keyed by raw name (overwrite keeps the
position of an existing key). -/
def dictInsertFn (fns : List Function) (f : Function) : List Function :=
  match fns with
  | [] => [f]
  | g :: gs => if g.rawname = f.rawname then f :: gs else g :: dictInsertFn gs f

/-- Dict write into the section map keyed by name. -/
def dictInsertSection (ss : List Section) (s : Section) : List Section :=
  match ss with
  | [] => [s]
  | t :: ts => if t.name = s.name then s :: ts else t :: dictInsertSection ts s

/-- Parser errors: the `ValueError('Unhandled line: %r' % line)` (carrying
the offending line) and the scope-walk `TypeError`. -/
inductive ParseErr where
  | unhandled (line : String)
  | scopeTypeError
deriving DecidableEq, Repr

/-- Parser state during `ObjDump.__init__`.  `curFunction` is the function
currently being built; the function dict receives its final value at
finalization time (Python mutates the shared object in place). -/
structure ParseState where
  model : AsmFile := {}
  curSection : Option Section := none
  curFunction : Option Function := none
deriving Repr

/-- Finalize the open function (next header seen): run `finish` and write
the result back through the shared reference into the function map. -/
def finalizeCur (st : ParseState) : ParseState :=
  match st.curFunction with
  | none => st
  | some f =>
    let f' := f.finish
    { st with
      model := { st.model with functions := dictInsertFn st.model.functions f' }
      curFunction := some f' }

/-- `ObjDump._on_function`: finalize any open function, demangle the raw
name, split on `::`, insert into the scope tree (creating intermediate
scopes; `TypeError` if a Function is in the way), then record the new
function in the function map and make it current. -/
def onFunction (d : String → String) (st : ParseState) (off : Nat)
    (name : String) : Except ParseErr ParseState :=
  let st := finalizeCur st
  let demangled := d name
  let scopes := splitScopes demangled
  let leaf := scopes.getLastD ""
  let f : Function :=
    { sect := st.curSection, offset := off, rawname := name
      demangled := demangled, leafname := leaf
      instrs := [], padding := [], size := 0 }
  match insertWalk st.model.rootns scopes.dropLast leaf name with
  | .error _ => .error .scopeTypeError
  | .ok root' =>
    .ok { st with
      model := { st.model with
        functions := dictInsertFn st.model.functions f
        rootns := root' }
      curFunction := some f }

/-- `ObjDump._on_instruction`: normalize the text with `fixup_disasm` and
append the instruction to the current function. -/
def onInstruction (d : String → String) (st : ParseState) (off : Nat)
    (bytes_ : List Nat) (disasm : String) : ParseState :=
  match st.curFunction with
  | none => st
  | some f =>
    let txt := fixupDisasm disasm f.rawname d
    let f' := { f with instrs := f.instrs ++ [⟨off, bytes_, txt⟩] }
    { st with curFunction := some f' }

/-- One iteration of the parsing loop of `ObjDump.__init__`, in the source's
order of tests. -/
def step (d : String → String) (st : ParseState) (l : String) :
    Except ParseErr ParseState :=
  if l = "" then .ok st
  else match matchFileFormat l.data with
  | some (p, fmt) =>
    .ok { st with model := { st.model with
            objpath := some (String.mk p), fileformat := some (String.mk fmt) } }
  | none => match matchSection l.data with
    | some nm =>
      let s : Section := ⟨String.mk nm⟩
      .ok { st with
        model := { st.model with sections := dictInsertSection st.model.sections s }
        curSection := some s }
    | none => match matchFnHeader l.data with
      | some (off, nm) => onFunction d st off (String.mk nm)
      | none =>
        if st.curFunction.isSome then
          match matchInstr3 l.data with
          | some (off, bs, txt) => .ok (onInstruction d st off bs (String.mk txt))
          | none =>
            match matchInstr2 l.data with
            | some (off, bs) => .ok (onInstruction d st off bs "")
            | none => .error (.unhandled l)
        else .error (.unhandled l)

/-- The parsing loop: an error aborts immediately, later lines are not
looked at. -/
def parseLines (d : String → String) (st : ParseState) :
    List String → Except ParseErr ParseState
  | [] => .ok st
  | l :: rest =>
    match step d st l with
    | .ok st' => parseLines d st' rest
    | .error e => .error e

/-- At end of input the still-open function is *not* finalized (the source
has no post-loop `finish` call), but the function map sees its accumulated
instructions through the shared reference. -/
def materialize (st : ParseState) : AsmFile :=
  match st.curFunction with
  | none => st.model
  | some f => { st.model with functions := dictInsertFn st.model.functions f }

/-- `ObjDump(f)`: parse a whole input (list of line contents). -/
def parseObjDump (d : String → String) (lines : List String) :
    Except ParseErr AsmFile :=
  (parseLines d {} lines).map materialize

/-!  The differ. -/

/-- `fn_equal(old, new)`. -/
def fn_equal (old new : Function) : Bool :=
  if old.instrs.length ≠ new.instrs.length then false
  else (old.instrs.zip new.instrs).all (fun p => p.1.disasm = p.2.disasm)

/-- One output line of `fn_diff`, one constructor per `writeln` call site,
carrying the interpolated values. -/
inductive OutLine where
  | sizeChanged (demangled : String) (oldSize newSize : Nat)
  | renamed (newDemangled : String)
  | movedSection (oldSec : String) (oldOff : Nat) (newSec : String) (newOff : Nat)
  | movedOffset (sec : String) (oldOff newOff : Nat)
  | headerOld (demangled : String)
  | headerNew (demangled : String)
  | instrSame (relOff : Int) (text : String)
  | instrOldNew (relOff : Int) (oldText newText : String)
deriving DecidableEq, Repr

/-- Python `old.section != new.section` (Section equality is by name; a
`None` on the left compares unequal to any Section).  The case
`some`/`none` would raise in Python (`None` has no `name`); it is modelled
as "different". -/
def sectionNe : Option Section → Option Section → Bool
  | none, none => false
  | none, some _ => true
  | some _, none => true
  | some a, some b => a.name ≠ b.name

/-- Name of an optional section for the move note (Python would raise on
`None`; that path is not exercised by parsed inputs with sections). -/
def sectName : Option Section → String
  | none => ""
  | some s => s.name

/-- The `handle_minor_changes` closure in `fn_diff`. -/
def handleMinorChanges (old new : Function) : List OutLine :=
  (if old.rawname ≠ new.rawname then [.renamed new.demangled] else []) ++
  (if sectionNe old.sect new.sect then
    [.movedSection (sectName old.sect) old.offset (sectName new.sect) new.offset]
  else if old.offset ≠ new.offset then
    [.movedOffset (sectName old.sect) old.offset new.offset]
  else [])

/-- `fn_diff(old, new, out, just_sizes)`, as the list of lines written. -/
def fn_diff (old new : Function) (just_sizes : Bool) : List OutLine :=
  if just_sizes then
    if old.size ≠ new.size then
      .sizeChanged old.demangled old.size new.size ::
        (if old.rawname ≠ new.rawname then [.renamed new.demangled] else [])
    else []
  else
    [.headerOld old.demangled, .headerNew old.demangled] ++
    handleMinorChanges old new ++
    (let pairs := old.instrs.zip new.instrs
     let has_changes := pairs.any (fun p => p.1.disasm ≠ p.2.disasm)
     if has_changes then
       pairs.flatMap (fun p =>
         if p.1.disasm = p.2.disasm then
           [.instrSame ((p.1.offset : Int) - (old.offset : Int)) p.1.disasm]
         else
           [.instrOldNew ((p.1.offset : Int) - (old.offset : Int))
              p.1.disasm p.2.disasm])
     else [])

/-!  The function matchup engine. -/

/-- The hard-coded rename shim in `FunctionMatchupSet._lookup`. -/
def rewriteRaw (s : String) : String :=
  pyReplace s "18gimple_statement_d" "21gimple_statement_base"

/-- Lookup in the function dict by raw name (`rawname in functions` /
`functions[rawname]`; raw names are unique within a parsed model). -/
def dictLookupRaw (fns : List Function) (raw : String) : Option Function :=
  fns.find? (fun f => f.rawname = raw)

/-- `FunctionPeer.fn_by_leafnames[leaf]`: the dict is built by iterating
the function map, so on duplicate leaf names the last write wins. -/
def lookupLeaf (fns : List Function) (leaf : String) : Option Function :=
  fns.reverse.find? (fun f => f.leafname = leaf)

/-- `FunctionMatchupSet._lookup(olditem)`: the rename shim, then exact raw
name in the new model, then the leaf-name fallback. -/
def matchupLookup (newFns : List Function) (olditem : Function) :
    Option Function :=
  let rawname := rewriteRaw olditem.rawname
  match dictLookupRaw newFns rawname with
  | some f => some f
  | none => lookupLeaf newFns olditem.leafname

/-- The four outputs of `MatchupSet.__init__`. -/
structure MatchupSet where
  old_to_new : List (Function × Function) := []
  new_to_old : List (Function × Function) := []
  gone : List Function := []
  appeared : List Function := []
deriving Repr

/-- Dict write keyed by `Function` (its identity is the raw name; an
existing key object is kept, only the value is replaced). -/
def dictInsertPair (l : List (Function × Function)) (k v : Function) :
    List (Function × Function) :=
  match l with
  | [] => [(k, v)]
  | p :: ps => if p.1.rawname = k.rawname then (p.1, v) :: ps else p :: dictInsertPair ps k v

/-- One iteration of the first loop of `MatchupSet.__init__`. -/
def matchupStep (newFns : List Function) (acc : MatchupSet) (olditem : Function) :
    MatchupSet :=
  match matchupLookup newFns olditem with
  | some newitem =>
    { acc with
      old_to_new := dictInsertPair acc.old_to_new olditem newitem
      new_to_old := dictInsertPair acc.new_to_old newitem olditem }
  | none => { acc with gone := acc.gone ++ [olditem] }

/-- `FunctionMatchupSet(old, new)`: pair up old functions with new ones,
then record unmatched new functions as `appeared`. -/
def FunctionMatchupSet (old new : AsmFile) : MatchupSet :=
  let acc := old.functions.foldl (matchupStep new.functions) {}
  { acc with
    appeared := new.functions.filter (fun n =>
      ¬ acc.new_to_old.any (fun p => p.1.rawname = n.rawname)) }

/-!  The report generator's counters (`asm_diff`). -/

structure DiffCounts where
  added : Nat := 0
  removed : Nat := 0
  changed : Nat := 0
  insertions : Int := 0
  deletions : Int := 0
deriving DecidableEq, Repr

/-- The `for gone in peers.gone` loop body. -/
def goneStep (c : DiffCounts) (g : Function) : DiffCounts :=
  { c with removed := c.removed + 1
           deletions := c.deletions + (g.instrs.length : Int) }

/-- The `for appeared in peers.appeared` loop body. -/
def appearedStep (c : DiffCounts) (a : Function) : DiffCounts :=
  { c with added := c.added + 1
           insertions := c.insertions + (a.instrs.length : Int) }

/-- The `for oldfn, newfn in peers.old_to_new.items()` loop body. -/
def changedStep (c : DiffCounts) (p : Function × Function) : DiffCounts :=
  if ¬ fn_equal p.1 p.2 then
    { c with changed := c.changed + 1
             insertions := c.insertions +
               ((p.2.instrs.length : Int) - (p.1.instrs.length : Int))
             deletions := c.deletions +
               ((p.1.instrs.length : Int) - (p.2.instrs.length : Int)) }
  else c

/-- The counter-accumulation portion of `asm_diff(old, new, out, just_sizes)`. -/
def asmDiffCounts (old new : AsmFile) : DiffCounts :=
  let peers := FunctionMatchupSet old new
  let c1 := peers.gone.foldl goneStep {}
  let c2 := peers.appeared.foldl appearedStep c1
  peers.old_to_new.foldl changedStep c2

/-!  Concrete instances used to evaluate the definitions. -/

/-- A pass-through demangler (`c++filt` on a non-symbol returns its input). -/
def idDemangler : String → String := fun s => s

/-- A demangler knowing `_Z3fooi`; on the bracketed text it behaves like
`c++filt`, which demangles symbols embedded in surrounding text. -/
def exDemangler : String → String := fun s =>
  if s = "<_Z3fooi>" then "<foo(int)>"
  else if s = "_Z3fooi" then "foo(int)"
  else s

/-- A demangler mapping `f1` to `a::b::c` and `f2` to `a::b`. -/
def nsDemangler : String → String := fun s =>
  if s = "f1" then "a::b::c" else if s = "f2" then "a::b" else s

/-- A bare function record (section-less, offset 0). -/
def plainFn (raw leaf : String) (instrs : List Instruction) (sz : Nat) : Function :=
  { sect := none, offset := 0, rawname := raw, demangled := raw, leafname := leaf,
    instrs := instrs, padding := [], size := sz }

def exNop1 : Instruction := ⟨16, [144], "nop"⟩

def exNop2 : Instruction := ⟨17, [7, 8], "nop"⟩

/-- A function ending in a run of two `nop` instructions. -/
def nopRunFn : Function := plainFn "f" "f" [exNop1, exNop2] 0

def fnA : Function := plainFn "A" "foo" [⟨0, [0], "i"⟩] 0

def fnB : Function := plainFn "B" "foo" [⟨0, [0], "i"⟩, ⟨1, [0], "j"⟩] 0

def fnC : Function := plainFn "C" "foo" [⟨0, [0], "k"⟩] 0

/-- Old model with two functions sharing the leaf name `foo`. -/
def c1Old : AsmFile := { functions := [fnA, fnB] }

/-- New model with a single function with leaf name `foo`. -/
def c1New : AsmFile := { functions := [fnC] }

def w1A : Function := plainFn "A" "foo" [] 0

def w1A2 : Function := plainFn "A" "bar" [] 3

def w1Old : AsmFile := { functions := [w1A] }

def w1New : AsmFile := { functions := [w1A2] }

/-- Same size, different raw names. -/
def c4Old : Function := plainFn "A" "a" [] 5

def c4New : Function := plainFn "B" "b" [] 5

/-- Different sizes and different raw names. -/
def w4Old : Function := plainFn "A" "a" [] 4

def w4New : Function := plainFn "B" "b" [] 7

def w5o : Function := plainFn "o" "o" [⟨0, [1], "mov"⟩] 0

def w5o2 : Function := plainFn "o" "o" [⟨9, [2, 3], "mov"⟩] 0

def c10OldLines : List String := ["0 <f>:", "0:\ta\tmov r0", "1:\tb\tmov r1"]

def c10NewLines : List String := ["0 <f>:", "0:\ta\tmov r0"]

def c10Old : AsmFile := (parseObjDump idDemangler c10OldLines).toOption.getD {}

def c10New : AsmFile := (parseObjDump idDemangler c10NewLines).toOption.getD {}

def nsLines : List String := ["0 <f1>:", "4 <f2>:"]

/-- Check that a parse succeeded, produced a function `f1` with demangled
name `a::b::c`, and that the path `a::b::c` is not present in the scope
tree. -/
def reachCheck : Except ParseErr AsmFile → Bool
  | .error _ => false
  | .ok m =>
    (m.functions.any (fun f => f.rawname = "f1" && f.demangled = "a::b::c")) &&
    (lookupPath m.rootns ["a", "b", "c"]).isNone

/-- Instruction-level diff lines of `fn_diff` (the `FN+...` body lines). -/
def isInstrLine : OutLine → Bool
  | .instrSame _ _ => true
  | .instrOldNew _ _ _ => true
  | _ => false

/-!  Theorems. -/

lemma zip_all_disasm_iff (l1 l2 : List Instruction) (h : l1.length = l2.length) :
    ((l1.zip l2).all (fun p => p.1.disasm = p.2.disasm) = true) ↔
      l1.map Instruction.disasm = l2.map Instruction.disasm := by
  induction l1 generalizing l2 with
  | nil => cases l2 with
    | nil => simp
    | cons b l2 => simp at h
  | cons a l1 ih =>
    cases l2 with
    | nil => simp at h
    | cons b l2 =>
      simp only [List.zip_cons_cons, List.all_cons, Bool.and_eq_true,
        decide_eq_true_eq, List.map_cons, List.cons.injEq]
      rw [ih l2 (by simpa using h)]

lemma fn_equal_eq_true_iff (old new : Function) :
    fn_equal old new = true ↔
      old.instrs.map Instruction.disasm = new.instrs.map Instruction.disasm := by
  unfold fn_equal
  split
  · rename_i h
    constructor
    · intro hf; cases hf
    · intro hm; exact absurd (by simpa using congrArg List.length hm) h
  · rename_i h
    rw [not_not] at h
    exact zip_all_disasm_iff old.instrs new.instrs h

/-- C5: `fn_equal` returns true iff the two real-instruction sequences have
the same length and every positionally corresponding pair has identical
normalized disassembly text; the result depends only on the normalized
texts, so changing only raw bytes or offsets never changes it. -/
theorem fn_equal_spec :
    (∀ old new : Function,
      fn_equal old new = true ↔
        (old.instrs.length = new.instrs.length ∧
          ∀ i, (h1 : i < old.instrs.length) → (h2 : i < new.instrs.length) →
            (old.instrs.get ⟨i, h1⟩).disasm = (new.instrs.get ⟨i, h2⟩).disasm))
    ∧ (∀ o o2 n n2 : Function,
        o.instrs.map Instruction.disasm = o2.instrs.map Instruction.disasm →
        n.instrs.map Instruction.disasm = n2.instrs.map Instruction.disasm →
        fn_equal o n = fn_equal o2 n2) := by
  constructor
  · intro old new
    rw [fn_equal_eq_true_iff]
    constructor
    · intro hm
      have hlen : old.instrs.length = new.instrs.length := by
        simpa using congrArg List.length hm
      refine ⟨hlen, ?_⟩
      intro i h1 h2
      have hg : (old.instrs.map Instruction.disasm).get? i =
          (new.instrs.map Instruction.disasm).get? i := by rw [hm]
      rw [List.get?_eq_get (by simpa using h1),
        List.get?_eq_get (by simpa using h2)] at hg
      have hg2 := Option.some.inj hg
      simpa [List.getElem_map, List.get_eq_getElem] using hg2
    · rintro ⟨hlen, hpt⟩
      apply List.ext_getElem (by simpa using hlen)
      intro i h1 h2
      simp only [List.getElem_map]
      have := hpt i (by simpa using h1) (by simpa using h2)
      simpa [List.get_eq_getElem] using this
  · intro o o2 n n2 ho hn
    have i1 := fn_equal_eq_true_iff o n
    have i2 := fn_equal_eq_true_iff o2 n2
    rw [ho, hn] at i1
    have : fn_equal o n = true ↔ fn_equal o2 n2 = true := i1.trans i2.symm
    cases h1 : fn_equal o n <;> cases h2 : fn_equal o2 n2 <;> simp_all

/-- C5 witness: instances differing only in bytes and offsets yield the
same `fn_equal` verdict. -/
theorem fn_equal_spec_witness : fn_equal w5o w5o = fn_equal w5o2 w5o2 :=
  fn_equal_spec.2 w5o w5o2 w5o w5o2 rfl rfl

/-- C2 evaluation: on a function whose instruction sequence is a run of two
`nop` instructions, `finish` moves only the last one into `padding`; the
claim's maximal-trailing-run reading would leave `instrs` empty. -/
theorem finish_single_nop_eval :
    nopRunFn.instrs = [exNop1, exNop2] ∧
    exNop1.disasm = "nop" ∧ exNop2.disasm = "nop" ∧
    nopRunFn.finish.instrs = [exNop1] ∧
    nopRunFn.finish.padding = [exNop2] ∧
    nopRunFn.finish.size = 1 :=
  ⟨rfl, rfl, rfl, rfl, rfl, rfl⟩

/-- C4 (amended): in size-only mode `fn_diff` emits the size-delta line iff
the sizes differ, the rename note iff additionally the raw names differ,
and never an instruction-level diff line. -/
theorem fn_diff_sizes_spec (old new : Function) :
    (OutLine.sizeChanged old.demangled old.size new.size ∈ fn_diff old new true ↔
      old.size ≠ new.size)
    ∧ (OutLine.renamed new.demangled ∈ fn_diff old new true ↔
      (old.size ≠ new.size ∧ old.rawname ≠ new.rawname))
    ∧ ∀ l ∈ fn_diff old new true, isInstrLine l = false := by
  by_cases hs : old.size = new.size <;> by_cases hr : old.rawname = new.rawname <;>
    simp [fn_diff, hs, hr, isInstrLine]

/-- C4 counterexample: an equal-size pair with different raw names emits
nothing at all — in particular no rename note, contrary to the claim's
"rename note whenever the raw names differ". -/
theorem fn_diff_sizes_counterexample :
    c4Old.rawname ≠ c4New.rawname ∧ fn_diff c4Old c4New true = [] :=
  ⟨by decide, rfl⟩

/-- C4 witness: with differing sizes and raw names the rename note is
emitted. -/
theorem fn_diff_sizes_spec_witness :
    OutLine.renamed w4New.demangled ∈ fn_diff w4Old w4New true :=
  ((fn_diff_sizes_spec w4Old w4New).2.1).mpr ⟨by decide, by decide⟩

/-- C10: a parsed pair of models with a changed matched pair whose new
version has fewer instructions yields a negative aggregate insertion count;
nothing clamps the totals at zero. -/
theorem asm_diff_negative_insertions_eval :
    (parseObjDump idDemangler c10OldLines).isOk = true ∧
    (parseObjDump idDemangler c10NewLines).isOk = true ∧
    (asmDiffCounts c10Old c10New).insertions = -1 ∧
    ((-1 : Int) < 0) ∧
    (asmDiffCounts c10Old c10New).deletions = 1 :=
  ⟨rfl, rfl, rfl, by decide, rfl⟩

/-- C1 counterexample: two distinct old functions (raw names `A`, `B`)
sharing the leaf name `foo` are both mapped to the same new function `C`:
`old_to_new` is not injective. -/
theorem matchup_not_injective_eval :
    (FunctionMatchupSet c1Old c1New).old_to_new.map
        (fun p => (p.1.rawname, p.2.rawname)) = [("A", "C"), ("B", "C")] ∧
    fnA ≠ fnB :=
  ⟨rfl, by decide⟩

lemma goneStep_foldl (l : List Function) (c : DiffCounts) :
    l.foldl goneStep c =
      { c with
        removed := c.removed + l.length
        deletions := c.deletions + (l.map (fun g => (g.instrs.length : Int))).sum } := by
  induction l generalizing c with
  | nil => simp
  | cons g gs ih =>
    obtain ⟨ca, cr, cc, ci, cd⟩ := c
    simp only [List.foldl_cons, ih, List.length_cons, List.map_cons, List.sum_cons]
    simp only [goneStep]
    congr 1 <;> omega

lemma appearedStep_foldl (l : List Function) (c : DiffCounts) :
    l.foldl appearedStep c =
      { c with
        added := c.added + l.length
        insertions := c.insertions + (l.map (fun a => (a.instrs.length : Int))).sum } := by
  induction l generalizing c with
  | nil => simp
  | cons a as ih =>
    obtain ⟨ca, cr, cc, ci, cd⟩ := c
    simp only [List.foldl_cons, ih, List.length_cons, List.map_cons, List.sum_cons]
    simp only [appearedStep]
    congr 1 <;> omega

lemma changedStep_foldl (l : List (Function × Function)) (c : DiffCounts) :
    l.foldl changedStep c =
      { c with
        changed := c.changed + (l.filter (fun p => !fn_equal p.1 p.2)).length
        insertions := c.insertions +
          ((l.filter (fun p => !fn_equal p.1 p.2)).map
            (fun p => (p.2.instrs.length : Int) - (p.1.instrs.length : Int))).sum
        deletions := c.deletions +
          ((l.filter (fun p => !fn_equal p.1 p.2)).map
            (fun p => (p.1.instrs.length : Int) - (p.2.instrs.length : Int))).sum } := by
  induction l generalizing c with
  | nil => simp
  | cons p ps ih =>
    simp only [List.foldl_cons, ih, List.filter_cons]
    by_cases h : fn_equal p.1 p.2
    · simp [changedStep, h]
    · obtain ⟨ca, cr, cc, ci, cd⟩ := c
      have hb : (!fn_equal p.1 p.2) = true := by simp [h]
      simp only [changedStep, if_pos h, hb, if_true, List.length_cons,
        List.map_cons, List.sum_cons]
      congr 1 <;> omega

/-- C6: the aggregate counters of `asm_diff`: each removed function adds its
real-instruction count to deletions, each added function adds its count to
insertions, each matched pair failing `fn_equal` adds the instruction-count
delta to insertions and its negation to deletions, and passing pairs
contribute nothing. -/
theorem asm_diff_counts_spec (old new : AsmFile) :
    (asmDiffCounts old new).insertions =
      ((FunctionMatchupSet old new).appeared.map
        (fun a => (a.instrs.length : Int))).sum +
      (((FunctionMatchupSet old new).old_to_new.filter
          (fun p => !fn_equal p.1 p.2)).map
        (fun p => (p.2.instrs.length : Int) - (p.1.instrs.length : Int))).sum
    ∧ (asmDiffCounts old new).deletions =
      ((FunctionMatchupSet old new).gone.map
        (fun g => (g.instrs.length : Int))).sum +
      (((FunctionMatchupSet old new).old_to_new.filter
          (fun p => !fn_equal p.1 p.2)).map
        (fun p => (p.1.instrs.length : Int) - (p.2.instrs.length : Int))).sum := by
  simp only [asmDiffCounts]
  rw [goneStep_foldl, appearedStep_foldl, changedStep_foldl]
  simp

/-- C8: any non-blank line recognized by none of the line shapes — including
an instruction-shaped line while no function is open — aborts parsing at
once with an error carrying the offending line; the remaining input is not
processed. -/
theorem parse_unhandled_line (d : String → String) (st : ParseState) (l : String)
    (rest : List String)
    (hblank : l ≠ "")
    (hff : matchFileFormat l.data = none)
    (hsec : matchSection l.data = none)
    (hfn : matchFnHeader l.data = none)
    (hinstr : st.curFunction = none ∨
      (matchInstr3 l.data = none ∧ matchInstr2 l.data = none)) :
    parseLines d st (l :: rest) = .error (.unhandled l) := by
  have hstep : step d st l = .error (.unhandled l) := by
    unfold step
    rw [if_neg hblank, hff, hsec, hfn]
    rcases hinstr with hc | ⟨h3, h2⟩
    · simp [hc]
    · by_cases hc : st.curFunction.isSome
      · simp [hc, h3, h2]
      · simp [hc]
  unfold parseLines
  rw [hstep]

/-- C8 witness: a concrete garbage line aborts the parse immediately even
though a valid header follows. -/
theorem parse_unhandled_line_witness :
    parseLines idDemangler {} ["garbage!!", "0 <f>:"] =
      .error (.unhandled "garbage!!") :=
  parse_unhandled_line idDemangler {} "garbage!!" ["0 <f>:"]
    (by decide) rfl rfl rfl (Or.inl rfl)

lemma dictLookupRaw_rawname (fns : List Function) (r : String) (f : Function)
    (h : dictLookupRaw fns r = some f) : f.rawname = r := by
  unfold dictLookupRaw at h
  simpa using List.find?_some h

lemma mem_dictInsertPair (l : List (Function × Function)) (k v : Function)
    (p : Function × Function) (hp : p ∈ dictInsertPair l k v) :
    p ∈ l ∨ p = (k, v) ∨ ∃ q ∈ l, q.1.rawname = k.rawname ∧ p = (q.1, v) := by
  induction l with
  | nil =>
    simp only [dictInsertPair, List.mem_singleton] at hp
    exact Or.inr (Or.inl hp)
  | cons q l ih =>
    simp only [dictInsertPair] at hp
    by_cases hq : q.1.rawname = k.rawname
    · rw [if_pos hq] at hp
      rcases List.mem_cons.mp hp with h | h
      · exact Or.inr (Or.inr ⟨q, List.mem_cons_self _ _, hq, h⟩)
      · exact Or.inl (List.mem_cons_of_mem _ h)
    · rw [if_neg hq] at hp
      rcases List.mem_cons.mp hp with h | h
      · exact Or.inl (h ▸ List.mem_cons_self _ _)
      · rcases ih h with h1 | h1 | ⟨r, hr, hrr, hpr⟩
        · exact Or.inl (List.mem_cons_of_mem _ h1)
        · exact Or.inr (Or.inl h1)
        · exact Or.inr (Or.inr ⟨r, List.mem_cons_of_mem _ hr, hrr, hpr⟩)

lemma matchup_fold_mem (newFns : List Function) (univ : List Function)
    (hraw : ∀ a ∈ univ, ∀ b ∈ univ, a.rawname = b.rawname → a = b) :
    ∀ (olds : List Function) (acc : MatchupSet),
      (∀ o ∈ olds, o ∈ univ) →
      (∀ p ∈ acc.old_to_new, p.1 ∈ univ ∧ matchupLookup newFns p.1 = some p.2) →
      ∀ p ∈ (olds.foldl (matchupStep newFns) acc).old_to_new,
        p.1 ∈ univ ∧ matchupLookup newFns p.1 = some p.2 := by
  intro olds
  induction olds with
  | nil => intro acc _ hacc; simpa using hacc
  | cons o os ih =>
    intro acc holds hacc
    rw [List.foldl_cons]
    apply ih
    · intro x hx; exact holds x (List.mem_cons_of_mem _ hx)
    · intro p hp
      cases hl : matchupLookup newFns o with
      | none =>
        simp only [matchupStep, hl] at hp
        exact hacc p hp
      | some n =>
        simp only [matchupStep, hl] at hp
        rcases mem_dictInsertPair _ _ _ _ hp with h | h | ⟨q, hq, hqr, hpq⟩
        · exact hacc p h
        · subst h; exact ⟨holds o (List.mem_cons_self _ _), hl⟩
        · have hqinv := hacc q hq
          have hqo : q.1 = o := hraw q.1 hqinv.1 o (holds o (List.mem_cons_self _ _)) hqr
          subst hpq
          exact ⟨hqinv.1, by rw [hqo, hl]⟩

/-- C1 (amended): `old_to_new` is injective when every old function matches
by exact (rewritten) raw name and the raw-name rewrite is injective on the
old functions; in general injectivity fails — two old functions sharing a
leaf name can both be mapped to the same new function. -/
theorem matchup_injective_on_exact (old new : AsmFile) (p q : Function × Function)
    (hrw : ∀ a ∈ old.functions, ∀ b ∈ old.functions,
      rewriteRaw a.rawname = rewriteRaw b.rawname → a = b)
    (hexact : ∀ f ∈ old.functions,
      (dictLookupRaw new.functions (rewriteRaw f.rawname)).isSome = true)
    (hp : p ∈ (FunctionMatchupSet old new).old_to_new)
    (hq : q ∈ (FunctionMatchupSet old new).old_to_new)
    (heq : p.2 = q.2) : p.1 = q.1 := by
  have hraw : ∀ a ∈ old.functions, ∀ b ∈ old.functions,
      a.rawname = b.rawname → a = b := by
    intro a ha b hb h
    exact hrw a ha b hb (by rw [h])
  have hshape : (FunctionMatchupSet old new).old_to_new =
      (old.functions.foldl (matchupStep new.functions) {}).old_to_new := by
    simp [FunctionMatchupSet]
  have hmem : ∀ r ∈ (FunctionMatchupSet old new).old_to_new,
      r.1 ∈ old.functions ∧ matchupLookup new.functions r.1 = some r.2 := by
    intro r hr
    rw [hshape] at hr
    exact matchup_fold_mem new.functions old.functions hraw old.functions {}
      (fun o ho => ho) (by intro x hx; simp at hx) r hr
  obtain ⟨hpu, hpl⟩ := hmem p hp
  obtain ⟨hqu, hql⟩ := hmem q hq
  obtain ⟨f1, hf1⟩ := Option.isSome_iff_exists.mp (hexact p.1 hpu)
  obtain ⟨f2, hf2⟩ := Option.isSome_iff_exists.mp (hexact q.1 hqu)
  have hpl2 : p.2 = f1 := by
    simp only [matchupLookup] at hpl
    rw [hf1] at hpl
    exact (Option.some.inj hpl).symm
  have hql2 : q.2 = f2 := by
    simp only [matchupLookup] at hql
    rw [hf2] at hql
    exact (Option.some.inj hql).symm
  have h1 : f1.rawname = rewriteRaw p.1.rawname := dictLookupRaw_rawname _ _ _ hf1
  have h2 : f2.rawname = rewriteRaw q.1.rawname := dictLookupRaw_rawname _ _ _ hf2
  apply hrw p.1 hpu q.1 hqu
  rw [← h1, ← h2, ← hpl2, ← hql2, heq]

/-- C1 witness: a one-function pair of models satisfying the exact-match
hypotheses, with the theorem applied to the single matched pair. -/
theorem matchup_injective_on_exact_witness :
    (w1A, w1A2).1 = (w1A, w1A2).1 :=
  matchup_injective_on_exact w1Old w1New (w1A, w1A2) (w1A, w1A2)
    (by decide) (by decide) (by decide) (by decide) rfl

lemma assocGet_cons (p : String × ScopeEntry) (ps : List (String × ScopeEntry))
    (k : String) :
    assocGet (p :: ps) k = if p.1 = k then some p.2 else assocGet ps k := by
  by_cases h : p.1 = k <;> simp [assocGet, List.find?_cons, h]

lemma assocGet_set_self (l : List (String × ScopeEntry)) (k : String)
    (v : ScopeEntry) : assocGet (assocSet l k v) k = some v := by
  induction l with
  | nil => simp [assocSet, assocGet_cons]
  | cons p ps ih =>
    by_cases h : p.1 = k
    · simp [assocSet, h, assocGet_cons]
    · simp [assocSet, h, assocGet_cons, ih]

lemma assocGet_set_other (l : List (String × ScopeEntry)) (k : String)
    (v : ScopeEntry) (k' : String) (h : k' ≠ k) :
    assocGet (assocSet l k v) k' = assocGet l k' := by
  induction l with
  | nil =>
    simp [assocSet, assocGet_cons, assocGet, Ne.symm h]
  | cons p ps ih =>
    by_cases hp : p.1 = k
    · subst hp
      simp [assocSet, assocGet_cons, Ne.symm h]
    · simp [assocSet, hp, assocGet_cons, ih]

lemma assocGet_append_other (l : List (String × ScopeEntry)) (k : String)
    (v : ScopeEntry) (k' : String) (h : k' ≠ k) :
    assocGet (l ++ [(k, v)]) k' = assocGet l k' := by
  induction l with
  | nil => simp [assocGet, List.find?_cons, Ne.symm h]
  | cons p ps ih => simp [assocGet_cons, ih]

lemma assocGet_ensureChild_other (t : List (String × ScopeEntry)) (d k' : String)
    (h : k' ≠ d) : assocGet (ensureChild t d) k' = assocGet t k' := by
  unfold ensureChild
  split
  · rfl
  · exact assocGet_append_other t d _ k' h

lemma insertWalk_lookup_self :
    ∀ (dirs : List String) (t t1 : List (String × ScopeEntry)) (leaf raw : String),
      insertWalk t dirs leaf raw = .ok t1 →
      lookupPath t1 (dirs ++ [leaf]) = some (.fnLeaf raw) := by
  intro dirs
  induction dirs with
  | nil =>
    intro t t1 leaf raw h
    simp only [insertWalk] at h
    cases h
    simp [lookupPath, assocGet_set_self]
  | cons d ds ih =>
    intro t t1 leaf raw h
    simp only [insertWalk] at h
    split at h
    · rename_i nm cs hg
      split at h
      · rename_i cs' hrec
        cases h
        cases hds : ds ++ [leaf] with
        | nil => simp at hds
        | cons x xs =>
          rw [List.cons_append, hds]
          simp only [lookupPath, assocGet_set_self]
          rw [← hds]
          exact ih cs cs' leaf raw hrec
      · cases h
    · cases h

lemma insertWalk_lookup_pres :
    ∀ (qd : List String) (t t2 : List (String × ScopeEntry)) (ql qraw : String)
      (P : List String) (s : String),
      insertWalk t qd ql qraw = .ok t2 →
      (¬ ∃ r, (qd ++ [ql]) ++ r = P) →
      lookupPath t P = some (.fnLeaf s) →
      lookupPath t2 P = some (.fnLeaf s) := by
  intro qd
  induction qd with
  | nil =>
    intro t t2 ql qraw P s h hnp hl
    simp only [insertWalk] at h
    cases h
    cases P with
    | nil => simp [lookupPath] at hl
    | cons p0 prest =>
      have hp0 : p0 ≠ ql := by
        rintro rfl
        exact hnp ⟨prest, by simp⟩
      cases prest with
      | nil =>
        simpa [lookupPath, assocGet_set_other _ _ _ _ hp0] using hl
      | cons x xs =>
        simp only [lookupPath] at hl ⊢
        rw [assocGet_set_other _ _ _ _ hp0]
        exact hl
  | cons d ds ih =>
    intro t t2 ql qraw P s h hnp hl
    simp only [insertWalk] at h
    split at h
    · rename_i nm cs hg
      split at h
      · rename_i cs' hrec
        cases h
        cases P with
        | nil => simp [lookupPath] at hl
        | cons p0 prest =>
          by_cases hp0 : p0 = d
          · subst hp0
            cases prest with
            | nil =>
              simp only [lookupPath] at hl
              have hch : ensureChild t p0 = t := by simp [ensureChild, hl]
              rw [hch, hl] at hg
              cases hg
            | cons x xs =>
              simp only [lookupPath] at hl ⊢
              cases hg0 : assocGet t p0 with
              | none => rw [hg0] at hl; simp at hl
              | some e0 =>
                cases e0 with
                | fnLeaf r0 => rw [hg0] at hl; simp at hl
                | node nm0 cs0 =>
                  rw [hg0] at hl
                  have hch : ensureChild t p0 = t := by
                    simp [ensureChild, hg0]
                  rw [hch, hg0] at hg
                  simp only [Option.some.injEq, ScopeEntry.node.injEq] at hg
                  obtain ⟨hnm, hcs⟩ := hg
                  subst hnm
                  subst hcs
                  rw [assocGet_set_self]
                  exact ih _ cs' ql qraw (x :: xs) s hrec
                    (fun hex => hnp ⟨hex.choose, by
                      have hc := hex.choose_spec
                      simp only [List.cons_append] at hc ⊢
                      rw [hc]⟩) hl
          · cases prest with
            | nil =>
              simp only [lookupPath] at hl ⊢
              rw [assocGet_set_other _ _ _ _ hp0,
                assocGet_ensureChild_other _ _ _ hp0]
              exact hl
            | cons x xs =>
              simp only [lookupPath] at hl ⊢
              rw [assocGet_set_other _ _ _ _ hp0,
                assocGet_ensureChild_other _ _ _ hp0]
              exact hl
      · cases h
    · cases h

lemma insertAll_pres (post : List (List String × String × String)) :
    ∀ (t t' : List (String × ScopeEntry)) (P : List String) (s : String),
      insertAll t post = .ok t' →
      (∀ x ∈ post, ¬ ∃ r, (x.1 ++ [x.2.1]) ++ r = P) →
      lookupPath t P = some (.fnLeaf s) →
      lookupPath t' P = some (.fnLeaf s) := by
  induction post with
  | nil =>
    intro t t' P s h _ hl
    simp only [insertAll] at h
    cases h
    exact hl
  | cons x xs ih =>
    intro t t' P s h hx hl
    obtain ⟨xd, xl, xr⟩ := x
    simp only [insertAll] at h
    cases hw : insertWalk t xd xl xr with
    | error e => rw [hw] at h; cases h
    | ok t1 =>
      rw [hw] at h
      refine ih t1 t' P s h (fun y hy => hx y (List.mem_cons_of_mem _ hy)) ?_
      exact insertWalk_lookup_pres xd t t1 xl xr P s hw
        (by simpa using hx (xd, xl, xr) (List.mem_cons_self _ _)) hl

/-- C9 (amended): a function stays reachable from the root scope along its
demangled `::`-path provided no later scope insertion's full path is a
prefix of (or equal to) its own path; in general a later insertion can
overwrite an entry on the path and make the function unreachable (see the
evaluation counterexample). -/
theorem scope_insert_reachable (t0 : List (String × ScopeEntry))
    (pre post : List (List String × String × String))
    (dirs : List String) (leaf raw : String) (t' : List (String × ScopeEntry))
    (hrun : insertAll t0 (pre ++ (dirs, leaf, raw) :: post) = .ok t')
    (hpost : ∀ x ∈ post, ¬ ∃ r, (x.1 ++ [x.2.1]) ++ r = dirs ++ [leaf]) :
    lookupPath t' (dirs ++ [leaf]) = some (.fnLeaf raw) := by
  induction pre generalizing t0 with
  | nil =>
    rw [List.nil_append] at hrun
    simp only [insertAll] at hrun
    cases hw : insertWalk t0 dirs leaf raw with
    | error e => rw [hw] at hrun; cases hrun
    | ok t1 =>
      rw [hw] at hrun
      exact insertAll_pres post t1 t' _ _ hrun hpost
        (insertWalk_lookup_self dirs t0 t1 leaf raw hw)
  | cons y ys ih =>
    obtain ⟨yd, yl, yr⟩ := y
    rw [List.cons_append] at hrun
    simp only [insertAll] at hrun
    cases hw : insertWalk t0 yd yl yr with
    | error e => rw [hw] at hrun; cases hrun
    | ok t1 =>
      rw [hw] at hrun
      exact ih t1 hrun

/-- C9 counterexample: parsing two headers whose demangled names are
`a::b::c` and then `a::b` leaves `f1` recorded in the model but no longer
reachable along the path `a::b::c` (the later insertion overwrote the
intermediate scope `b`). -/
theorem scope_unreachable_eval :
    reachCheck (parseObjDump nsDemangler nsLines) = true ∧
    splitScopes "a::b::c" = ["a", "b", "c"] :=
  ⟨rfl, rfl⟩

/-- C9 witness: a single insertion with no later insertions is reachable. -/
theorem scope_insert_reachable_witness :
    lookupPath [("a", ScopeEntry.node "a" [("b", ScopeEntry.fnLeaf "f")])]
      (["a"] ++ ["b"]) = some (.fnLeaf "f") :=
  scope_insert_reachable [] [] [] ["a"] "b" "f"
    [("a", ScopeEntry.node "a" [("b", ScopeEntry.fnLeaf "f")])] rfl
    (by intro x hx; simp at hx)

lemma oMap_some {α β : Type} (f : α → β) (a : α) :
    (some a).map f = some (f a) := rfl

lemma oMap_none {α β : Type} (f : α → β) : Option.map f none = none := rfl

lemma oSome_orElse {α : Type} (a : α) (f : Unit → Option α) :
    (some a).orElse f = some a := rfl

lemma oNone_orElse {α : Type} (f : Unit → Option α) :
    Option.orElse none f = f () := rfl

lemma oSome_bind {α β : Type} (a : α) (f : α → Option β) :
    (some a).bind f = f a := rfl

lemma oGetD_some {α : Type} (a d : α) : (some a).getD d = a := rfl

lemma innerA_cons (c : Char) (cs : List Char) :
    innerA (c :: cs) =
      ((if c ≠ '\n' then innerA cs else none).map
        (fun p => (c :: p.1, p.2.1, p.2.2))).orElse
      (fun _ =>
        if c = '+' then (plusTailA cs).map (fun p => (([] : List Char), p.1, p.2))
        else none) := rfl

lemma findA_cons (c : Char) (cs : List Char) :
    findA (c :: cs) =
      ((if c ≠ '\n' then findA cs else none).map
        (fun p => (c :: p.1, p.2.1, p.2.2.1, p.2.2.2))).orElse
      (fun _ =>
        if isPySpace c then (groupA cs).map (fun p => ([c], p.1, p.2.1, p.2.2))
        else none) := rfl

lemma innerB_cons (c : Char) (cs : List Char) :
    innerB (c :: cs) =
      ((if c ≠ '\n' then innerB cs else none).map
        (fun p => (c :: p.1, p.2))).orElse
      (fun _ => if c = '>' then some (([] : List Char), cs) else none) := rfl

lemma findB_cons (c : Char) (cs : List Char) :
    findB (c :: cs) =
      ((if c ≠ '\n' then findB cs else none).map
        (fun p => (c :: p.1, p.2))).orElse
      (fun _ =>
        if isPySpace c then (groupB cs).map (fun g => ([c], g)) else none) := rfl

lemma pySpace_of_hex (c : Char) (h : isHexDigit c = true) : isPySpace c = false := by
  by_contra hs
  rw [Bool.not_eq_false] at hs
  simp only [isPySpace, Bool.or_eq_true, decide_eq_true_eq, or_assoc] at hs
  rcases hs with rfl | rfl | rfl | rfl | rfl | rfl <;> exact absurd h (by decide)

lemma newline_of_hex (c : Char) (h : isHexDigit c = true) : c ≠ '\n' := by
  intro he
  subst he
  exact absurd h (by decide)

lemma takeWhile_append_all (p : Char → Bool) (l r : List Char)
    (hl : ∀ c ∈ l, p c = true)
    (hr : ∀ c, r.head? = some c → p c = false) :
    (l ++ r).takeWhile p = l := by
  induction l with
  | nil =>
    cases r with
    | nil => rfl
    | cons c cs => simp [List.takeWhile_cons, hr c rfl]
  | cons c cs ih =>
    simp [List.takeWhile_cons, hl c (List.mem_cons_self _ _),
      ih (fun x hx => hl x (List.mem_cons_of_mem _ hx))]

lemma plusTailA_eval (delta : List Char) (hd : delta ≠ [])
    (hhex : ∀ c ∈ delta, isHexDigit c = true) :
    plusTailA ('0' :: 'x' :: (delta ++ ['>'])) = some (delta, []) := by
  have ht : (delta ++ ['>']).takeWhile isHexDigit = delta :=
    takeWhile_append_all _ _ _ hhex
      (by intro c hc; cases Option.some.inj hc; decide)
  simp only [plusTailA]
  rw [ht, List.drop_left]
  simp [hd]

lemma innerA_none (l : List Char) (h : '+' ∉ l) : innerA l = none := by
  induction l with
  | nil => rfl
  | cons c cs ih =>
    have hc : c ≠ '+' := fun he => h (he ▸ List.mem_cons_self _ _)
    have hcs : '+' ∉ cs := fun hm => h (List.mem_cons_of_mem _ hm)
    rw [innerA_cons, ih hcs, ite_self, oMap_none, oNone_orElse, if_neg hc]

lemma innerA_main (nm delta : List Char)
    (hnmn : ∀ c ∈ nm, c ≠ '\n')
    (hd : delta ≠ []) (hhex : ∀ c ∈ delta, isHexDigit c = true) :
    innerA (nm ++ '+' :: '0' :: 'x' :: (delta ++ ['>'])) = some (nm, delta, []) := by
  induction nm with
  | nil =>
    have hnone : innerA ('0' :: 'x' :: (delta ++ ['>'])) = none := by
      apply innerA_none
      intro hm
      simp only [List.mem_cons, List.mem_append, List.mem_singleton] at hm
      rcases hm with h | h | h | h
      · exact absurd h (by decide)
      · exact absurd h (by decide)
      · exact absurd (hhex _ h) (by decide)
      · exact absurd h (by decide)
    rw [List.nil_append, innerA_cons, if_pos (by decide), hnone, oMap_none,
      oNone_orElse, if_pos rfl, plusTailA_eval delta hd hhex, oMap_some]
  | cons c nms ih =>
    have hc : c ≠ '\n' := hnmn c (List.mem_cons_self _ _)
    rw [List.cons_append, innerA_cons, if_pos hc,
      ih (fun x hx => hnmn x (List.mem_cons_of_mem _ hx)), oMap_some, oSome_orElse]

lemma groupA_main (off nm delta : List Char)
    (hoff : off ≠ []) (hoffhex : ∀ c ∈ off, isHexDigit c = true)
    (hnm : nm ≠ []) (hnmn : ∀ c ∈ nm, c ≠ '\n')
    (hd : delta ≠ []) (hhex : ∀ c ∈ delta, isHexDigit c = true) :
    groupA (off ++ ' ' :: '<' :: (nm ++ '+' :: '0' :: 'x' :: (delta ++ ['>'])))
      = some (nm, delta, []) := by
  have ht : (off ++ ' ' :: '<' :: (nm ++ '+' :: '0' :: 'x' :: (delta ++ ['>']))).takeWhile
      isHexDigit = off :=
    takeWhile_append_all _ _ _ hoffhex
      (by intro c hc; cases Option.some.inj hc; decide)
  simp only [groupA]
  rw [ht, if_neg hoff, List.drop_left]
  show groupATail (nm ++ '+' :: '0' :: 'x' :: (delta ++ ['>'])) = some (nm, delta, [])
  rw [groupATail, innerA_main nm delta hnmn hd hhex, oSome_bind]
  simp [hnm]

lemma groupA_none_no_lt (l : List Char) (h : '<' ∉ l) : groupA l = none := by
  simp only [groupA]
  by_cases he : l.takeWhile isHexDigit = []
  · simp [he]
  · rw [if_neg he]
    split
    · rename_i t heq
      exfalso
      apply h
      apply List.mem_of_mem_drop (n := (l.takeWhile isHexDigit).length)
      rw [heq]
      simp
    · rfl

lemma findA_none_no_lt (l : List Char) (h : '<' ∉ l) : findA l = none := by
  induction l with
  | nil => rfl
  | cons c cs ih =>
    have hcs : '<' ∉ cs := fun hm => h (List.mem_cons_of_mem _ hm)
    rw [findA_cons, ih hcs, ite_self, oMap_none, oNone_orElse,
      groupA_none_no_lt cs hcs, oMap_none, ite_self]

lemma findA_hexRun_none (off x : List Char)
    (hhex : ∀ c ∈ off, isHexDigit c = true) (hx : findA x = none) :
    findA (off ++ x) = none := by
  induction off with
  | nil => simpa
  | cons c cs ih =>
    have h1 : isHexDigit c = true := hhex c (List.mem_cons_self _ _)
    rw [List.cons_append, findA_cons,
      ih (fun y hy => hhex y (List.mem_cons_of_mem _ hy)), ite_self, oMap_none,
      oNone_orElse, pySpace_of_hex c h1]
    simp

lemma groupA_empty_hex (t : List Char) (h : isHexDigit '<' = false) :
    groupA ('<' :: t) = none := by
  simp [groupA, List.takeWhile_cons, h]

lemma findA_operand_none (off nm delta : List Char)
    (hoffhex : ∀ c ∈ off, isHexDigit c = true)
    (hnmlt : '<' ∉ nm) (hhex : ∀ c ∈ delta, isHexDigit c = true) :
    findA (off ++ ' ' :: '<' :: (nm ++ '+' :: '0' :: 'x' :: (delta ++ ['>']))) = none := by
  have htlt : '<' ∉ (nm ++ '+' :: '0' :: 'x' :: (delta ++ ['>'])) := by
    intro hm
    simp only [List.mem_append, List.mem_cons, List.mem_singleton] at hm
    rcases hm with h | h | h | h | h | h
    · exact hnmlt h
    · exact absurd h (by decide)
    · exact absurd h (by decide)
    · exact absurd h (by decide)
    · exact absurd (hhex _ h) (by decide)
    · exact absurd h (by decide)
  apply findA_hexRun_none off _ hoffhex
  have hmid : findA ('<' :: (nm ++ '+' :: '0' :: 'x' :: (delta ++ ['>']))) = none := by
    rw [findA_cons, if_pos (by decide), findA_none_no_lt _ htlt, oMap_none,
      oNone_orElse]
    simp [(by decide : isPySpace '<' = false)]
  rw [findA_cons, if_pos (by decide), hmid, oMap_none, oNone_orElse,
    groupA_empty_hex _ (by decide), oMap_none, ite_self]

lemma findA_main (pre off nm delta : List Char)
    (hpre : ∀ c ∈ pre, c ≠ '\n')
    (hoff : off ≠ []) (hoffhex : ∀ c ∈ off, isHexDigit c = true)
    (hnm : nm ≠ []) (hnmn : ∀ c ∈ nm, c ≠ '\n') (hnmlt : '<' ∉ nm)
    (hd : delta ≠ []) (hhex : ∀ c ∈ delta, isHexDigit c = true) :
    findA (pre ++ ' ' :: (off ++ ' ' :: '<' :: (nm ++ '+' :: '0' :: 'x' :: (delta ++ ['>']))))
      = some (pre ++ [' '], nm, delta, []) := by
  induction pre with
  | nil =>
    rw [List.nil_append, findA_cons, if_pos (by decide),
      findA_operand_none off nm delta hoffhex hnmlt hhex, oMap_none, oNone_orElse,
      if_pos (by decide : isPySpace ' ' = true),
      groupA_main off nm delta hoff hoffhex hnm hnmn hd hhex, oMap_some]
    rfl
  | cons c pres ih =>
    have hc : c ≠ '\n' := hpre c (List.mem_cons_self _ _)
    rw [List.cons_append, findA_cons, if_pos hc,
      ih (fun x hx => hpre x (List.mem_cons_of_mem _ hx)), oMap_some, oSome_orElse]
    rfl

lemma groupB_none_no_lt (l : List Char) (h : '<' ∉ l) : groupB l = none := by
  simp only [groupB]
  by_cases he : l.takeWhile isHexDigit = []
  · simp [he]
  · rw [if_neg he]
    split
    · rename_i t heq
      exfalso
      apply h
      apply List.mem_of_mem_drop (n := (l.takeWhile isHexDigit).length)
      rw [heq]
      simp
    · rfl

lemma findB_none_no_lt (l : List Char) (h : '<' ∉ l) : findB l = none := by
  induction l with
  | nil => rfl
  | cons c cs ih =>
    have hcs : '<' ∉ cs := fun hm => h (List.mem_cons_of_mem _ hm)
    rw [findB_cons, ih hcs, ite_self, oMap_none, oNone_orElse,
      groupB_none_no_lt cs hcs, oMap_none, ite_self]

lemma fixupB_no_lt (l raw : List Char) (d : String → String) (h : '<' ∉ l) :
    fixupB l raw d = l := by
  unfold fixupB
  rw [findB_none_no_lt _ h]
  rfl

/-- C7: inside a function with raw name `nm`, an instruction text ending in
an operand `<hex-offset> <nm+0x<hex-delta>>` is rewritten by `fixupDisasm`
to end in `FN+0x<hex-delta>` instead, for any demangler. -/
theorem fixup_self_jump (d : String → String) (pre off nm delta : List Char)
    (hpre : ∀ c ∈ pre, c ≠ '\n') (hprelt : '<' ∉ pre)
    (hoff : off ≠ []) (hoffhex : ∀ c ∈ off, isHexDigit c = true)
    (hnm : nm ≠ []) (hnmn : ∀ c ∈ nm, c ≠ '\n') (hnmlt : '<' ∉ nm)
    (hd : delta ≠ []) (hhex : ∀ c ∈ delta, isHexDigit c = true) :
    fixupDisasm
      (String.mk (pre ++ ' ' :: (off ++ ' ' :: '<' ::
        (nm ++ '+' :: '0' :: 'x' :: (delta ++ ['>'])))))
      (String.mk nm) d
    = String.mk (pre ++ ' ' :: 'F' :: 'N' :: '+' :: '0' :: 'x' :: delta) := by
  show String.mk (fixupB (fixupA (pre ++ ' ' :: (off ++ ' ' :: '<' ::
      (nm ++ '+' :: '0' :: 'x' :: (delta ++ ['>'])))) nm) nm d) = _
  have ha : fixupA (pre ++ ' ' :: (off ++ ' ' :: '<' ::
      (nm ++ '+' :: '0' :: 'x' :: (delta ++ ['>'])))) nm
      = pre ++ ' ' :: 'F' :: 'N' :: '+' :: '0' :: 'x' :: delta := by
    unfold fixupA
    rw [findA_main pre off nm delta hpre hoff hoffhex hnm hnmn hnmlt hd hhex,
      oMap_some, oGetD_some]
    simp
  rw [ha, fixupB_no_lt]
  intro hm
  simp only [List.mem_append, List.mem_cons, List.mem_singleton] at hm
  rcases hm with h | h | h | h | h | h | h | h
  · exact hprelt h
  · exact absurd h (by decide)
  · exact absurd h (by decide)
  · exact absurd h (by decide)
  · exact absurd h (by decide)
  · exact absurd h (by decide)
  · exact absurd h (by decide)
  · exact absurd (hhex _ h) (by decide)

/-- C7 witness: the spec's own example normalizes as claimed. -/
theorem fixup_self_jump_witness :
    fixupDisasm
      (String.mk ("jmp   ".data ++ ' ' :: ("1240".data ++ ' ' :: '<' ::
        ("my_func".data ++ '+' :: '0' :: 'x' :: ("10".data ++ ['>'])))))
      (String.mk "my_func".data) idDemangler
    = String.mk ("jmp   ".data ++ ' ' :: 'F' :: 'N' :: '+' :: '0' :: 'x' :: "10".data) :=
  fixup_self_jump idDemangler "jmp   ".data "1240".data "my_func".data "10".data
    (by decide) (by decide) (by decide) (by decide) (by decide) (by decide)
    (by decide) (by decide) (by decide)

lemma groupA_none_no_plus (l : List Char) (h : '+' ∉ l) : groupA l = none := by
  simp only [groupA]
  by_cases he : l.takeWhile isHexDigit = []
  · simp [he]
  · rw [if_neg he]
    split
    · rename_i t heq
      have ht : '+' ∉ t := by
        intro hm
        apply h
        apply List.mem_of_mem_drop (n := (l.takeWhile isHexDigit).length)
        rw [heq]
        exact List.mem_cons_of_mem _ (List.mem_cons_of_mem _ hm)
      rw [groupATail, innerA_none t ht]
      rfl
    · rfl

lemma findA_none_no_plus (l : List Char) (h : '+' ∉ l) : findA l = none := by
  induction l with
  | nil => rfl
  | cons c cs ih =>
    have hcs : '+' ∉ cs := fun hm => h (List.mem_cons_of_mem _ hm)
    rw [findA_cons, ih hcs, ite_self, oMap_none, oNone_orElse,
      groupA_none_no_plus cs hcs, oMap_none, ite_self]

lemma fixupA_no_plus (l raw : List Char) (h : '+' ∉ l) : fixupA l raw = l := by
  unfold fixupA
  rw [findA_none_no_plus _ h]
  rfl

lemma innerB_main (nm : List Char) (hnmn : ∀ c ∈ nm, c ≠ '\n') :
    innerB (nm ++ ['>']) = some (nm, []) := by
  induction nm with
  | nil =>
    rw [List.nil_append, innerB_cons, if_pos (by decide),
      show innerB [] = none from rfl, oMap_none, oNone_orElse, if_pos rfl]
  | cons c nms ih =>
    have hc : c ≠ '\n' := hnmn c (List.mem_cons_self _ _)
    rw [List.cons_append, innerB_cons, if_pos hc,
      ih (fun x hx => hnmn x (List.mem_cons_of_mem _ hx)), oMap_some, oSome_orElse]

lemma groupB_main (off nm : List Char)
    (hoff : off ≠ []) (hoffhex : ∀ c ∈ off, isHexDigit c = true)
    (hnm : nm ≠ []) (hnmn : ∀ c ∈ nm, c ≠ '\n') :
    groupB (off ++ ' ' :: '<' :: (nm ++ ['>'])) = some ('<' :: nm ++ ['>']) := by
  have ht : (off ++ ' ' :: '<' :: (nm ++ ['>'])).takeWhile isHexDigit = off :=
    takeWhile_append_all _ _ _ hoffhex
      (by intro c hc; cases Option.some.inj hc; decide)
  simp only [groupB]
  rw [ht, if_neg hoff, List.drop_left]
  show groupBTail (nm ++ ['>']) = some ('<' :: nm ++ ['>'])
  rw [groupBTail, innerB_main nm hnmn, oSome_bind]
  simp [hnm]

lemma groupB_empty_hex (t : List Char) : groupB ('<' :: t) = none := by
  simp [groupB, List.takeWhile_cons, (by decide : isHexDigit '<' = false)]

lemma findB_hexRun_none (off x : List Char)
    (hhex : ∀ c ∈ off, isHexDigit c = true) (hx : findB x = none) :
    findB (off ++ x) = none := by
  induction off with
  | nil => simpa
  | cons c cs ih =>
    have h1 : isHexDigit c = true := hhex c (List.mem_cons_self _ _)
    rw [List.cons_append, findB_cons,
      ih (fun y hy => hhex y (List.mem_cons_of_mem _ hy)), ite_self, oMap_none,
      oNone_orElse, pySpace_of_hex c h1]
    simp

lemma findB_operand_none (off nm : List Char)
    (hoffhex : ∀ c ∈ off, isHexDigit c = true) (hnmlt : '<' ∉ nm) :
    findB (off ++ ' ' :: '<' :: (nm ++ ['>'])) = none := by
  have htlt : '<' ∉ (nm ++ ['>']) := by
    intro hm
    simp only [List.mem_append, List.mem_singleton] at hm
    rcases hm with h | h
    · exact hnmlt h
    · exact absurd h (by decide)
  apply findB_hexRun_none off _ hoffhex
  have hmid : findB ('<' :: (nm ++ ['>'])) = none := by
    rw [findB_cons, if_pos (by decide), findB_none_no_lt _ htlt, oMap_none,
      oNone_orElse]
    simp [(by decide : isPySpace '<' = false)]
  rw [findB_cons, if_pos (by decide), hmid, oMap_none, oNone_orElse,
    groupB_empty_hex, oMap_none, ite_self]

lemma findB_main (pre off nm : List Char)
    (hpre : ∀ c ∈ pre, c ≠ '\n')
    (hoff : off ≠ []) (hoffhex : ∀ c ∈ off, isHexDigit c = true)
    (hnm : nm ≠ []) (hnmn : ∀ c ∈ nm, c ≠ '\n') (hnmlt : '<' ∉ nm) :
    findB (pre ++ ' ' :: (off ++ ' ' :: '<' :: (nm ++ ['>'])))
      = some (pre ++ [' '], '<' :: nm ++ ['>']) := by
  induction pre with
  | nil =>
    rw [List.nil_append, findB_cons, if_pos (by decide),
      findB_operand_none off nm hoffhex hnmlt, oMap_none, oNone_orElse,
      if_pos (by decide : isPySpace ' ' = true),
      groupB_main off nm hoff hoffhex hnm hnmn, oMap_some]
    rfl
  | cons c pres ih =>
    have hc : c ≠ '\n' := hpre c (List.mem_cons_self _ _)
    rw [List.cons_append, findB_cons, if_pos hc,
      ih (fun x hx => hpre x (List.mem_cons_of_mem _ hx)), oMap_some, oSome_orElse]
    rfl

/-- C3 (amended): an instruction text ending in `<hex-offset> <name>` is
rewritten by dropping everything from the hex offset on and appending the
demangler's output on the *bracketed* text `<name>` (brackets included);
the comparison guarding the rewrite is also done on the bracketed text
against the raw function name. -/
theorem fixup_external_symbol (d : String → String) (pre off nm : List Char)
    (raw : String)
    (hpre : ∀ c ∈ pre, c ≠ '\n') (hpreplus : '+' ∉ pre)
    (hoff : off ≠ []) (hoffhex : ∀ c ∈ off, isHexDigit c = true)
    (hnm : nm ≠ []) (hnmn : ∀ c ∈ nm, c ≠ '\n') (hnmlt : '<' ∉ nm)
    (hnmplus : '+' ∉ nm)
    (hraw : ('<' :: nm ++ ['>']) ≠ raw.data) :
    fixupDisasm (String.mk (pre ++ ' ' :: (off ++ ' ' :: '<' :: (nm ++ ['>'])))) raw d
      = String.mk (pre ++ ' ' :: (d (String.mk ('<' :: nm ++ ['>']))).data) := by
  show String.mk (fixupB (fixupA (pre ++ ' ' :: (off ++ ' ' :: '<' :: (nm ++ ['>'])))
      raw.data) raw.data d) = _
  have hplus : '+' ∉ (pre ++ ' ' :: (off ++ ' ' :: '<' :: (nm ++ ['>']))) := by
    intro hm
    simp only [List.mem_append, List.mem_cons, List.mem_singleton] at hm
    rcases hm with h | h | h | h | h | h | h
    · exact hpreplus h
    · exact absurd h (by decide)
    · exact absurd (hoffhex _ h) (by decide)
    · exact absurd h (by decide)
    · exact absurd h (by decide)
    · exact hnmplus h
    · exact absurd h (by decide)
  rw [fixupA_no_plus _ _ hplus]
  unfold fixupB
  rw [findB_main pre off nm hpre hoff hoffhex hnm hnmn hnmlt, oMap_some, oGetD_some]
  have hraw2 : ¬ ('<' :: (nm ++ ['>']) = raw.data) := by simpa using hraw
  simp [hraw2]

/-- C3 counterexample: with a demangler mapping `_Z3fooi` to `foo(int)` and
behaving like `c++filt` on bracketed text, the operand `2000 <_Z3fooi>` is
rewritten to `<foo(int)>` — the brackets stay, because the code demangles
the bracketed text `<_Z3fooi>`, not the symbol `_Z3fooi`; the claim's
predicted result `call   foo(int)` differs. -/
theorem fixup_external_symbol_eval :
    fixupDisasm "call   2000 <_Z3fooi>" "bar" exDemangler = "call   <foo(int)>" ∧
    exDemangler "_Z3fooi" = "foo(int)" ∧
    ("call   <foo(int)>" : String) ≠ "call   foo(int)" :=
  ⟨rfl, rfl, by decide⟩

/-- C3 witness: applying the amended theorem to the concrete operand. -/
theorem fixup_external_symbol_witness :
    fixupDisasm
      (String.mk ("call  ".data ++ ' ' :: ("2000".data ++ ' ' :: '<' ::
        ("_Z3fooi".data ++ ['>'])))) "bar" exDemangler
    = String.mk ("call  ".data ++ ' ' ::
        (exDemangler (String.mk ('<' :: "_Z3fooi".data ++ ['>']))).data) :=
  fixup_external_symbol exDemangler "call  ".data "2000".data "_Z3fooi".data "bar"
    (by decide) (by decide) (by decide) (by decide) (by decide) (by decide)
    (by decide) (by decide) (by decide)

end AsmDiff
